import Mathlib

/-!
# Verification of the LAMMPS-NetMC dual-network topology engine

A shallow embedding, in Lean 4, of the parts of the LAMMPS-NetMC source
(`src/linked_network.cpp`, `include/vector_tools.tpp`, `src/node.cpp`)
that the specification's claims are about, together with theorems settling
each claim.

Conventions used throughout:

* Node identifiers are `Int` (the C++ code uses `int`).
* A network's adjacency structure is represented as functions
  `Int → List Int` (`netCnxs` and `dualCnxs` per node id); in-place C++
  mutation becomes sequential functional update with `upd`, which mirrors
  the statement order of the source exactly.
* The custom container classes `VecF`/`VecR` and the helpers
  `vCommonValues`, `vContains`, `vUnique`, `vAdjCount`, `vAngle` are part
  of this repository but their sources are not under `src/`; where needed
  they are modelled from the spec (each such definition carries a
  `Modelled from the spec:` doc comment).  Everything else is translated
  from the source files directly.
* Machine `int` overflow plays no role at the values involved, so `Int`
  arithmetic is used without wrap-around.
* C++ `throw` / `exit` become `Except String` results.
-/

/-! ## Vector helpers (`include/vector_tools.tpp` and the VecR model) -/

/-- Function `intersectVectors` from `include/vector_tools.tpp` (lines 142-152):
walks `vector1` in order and keeps exactly those elements that occur in
`vector2` (membership via a hash set of `vector2`'s elements). -/
def intersectVectors (vector1 vector2 : List Int) : List Int :=
  vector1.filter (fun value => vector2.elem value)

/-- Modelled from the spec: `vCommonValues` of the missing `VecR` library
("the two common dual (ring) nodes of a and b") — the common values of two
vectors; the in-repo replacement API `intersectVectors` fixes the order
and multiplicity convention (taken from the first vector). -/
def vCommonValues (vector1 vector2 : List Int) : List Int :=
  intersectVectors vector1 vector2

/-- Modelled from the spec: `vContains` of the missing `VecR` library,
membership test (the in-repo replacement is `vectorContains`). -/
def vContains (vector : List Int) (value : Int) : Bool :=
  vector.elem value

/-- Modelled from the spec: `VecR::delValue` of the missing `VecR` library
("break" a connection); deletes the occurrences of a value, as the in-repo
replacement `deleteByValues` does. -/
def delValue (vector : List Int) (value : Int) : List Int :=
  vector.filter (fun t => t ≠ value)

/-- Modelled from the spec: two-argument `VecR::swapValue` — "a direct
value substitution in each endpoint's adjacency list"; substitutes
`newValue` for `oldValue`, as the in-repo replacement `replaceValue`
does. -/
def swapValue (vector : List Int) (oldValue newValue : Int) : List Int :=
  vector.map (fun t => if t = oldValue then newValue else t)

/-- Whether position `i` of `vector` holds `oldValue` with cyclic
neighbours `p` and `q` (in either orientation). -/
def betweenAt (vector : List Int) (i : Nat) (oldValue p q : Int) : Bool :=
  vector.getD i 0 = oldValue &&
    ((vector.getD ((i + vector.length - 1) % vector.length) 0 = p &&
      vector.getD ((i + 1) % vector.length) 0 = q) ||
     (vector.getD ((i + vector.length - 1) % vector.length) 0 = q &&
      vector.getD ((i + 1) % vector.length) 0 = p))

/-- Modelled from the spec: four-argument `VecR::swapValue(old,new,p,q)` —
substitutes `newValue` for the occurrence(s) of `oldValue` lying cyclically
between the existing neighbours `p` and `q` ("insert new value between
these two existing neighbors" is the dual insert operation; the swap is its
substitution counterpart keyed the same way). -/
def swapValueBetween (vector : List Int) (oldValue newValue p q : Int) :
    List Int :=
  (List.range vector.length).map
    (fun i => if betweenAt vector i oldValue p q then newValue
              else vector.getD i 0)

/-- Number of positions of `vector` that `swapValueBetween` would
substitute. -/
def countBetween (vector : List Int) (oldValue p q : Int) : Nat :=
  ((List.range vector.length).filter
    (fun i => betweenAt vector i oldValue p q)).length

/-- First index `i` such that `p` sits at `i` with `q` as its cyclic
successor. -/
def adjPairIdx (vector : List Int) (p q : Int) : Option Nat :=
  (List.range vector.length).find?
    (fun i => vector.getD i 0 = p &&
              vector.getD ((i + 1) % vector.length) 0 = q)

/-- Modelled from the spec: `VecR::insertValue(new,p,q)` — "direct
insertion ... keyed by an explicit insert-new-value-between-these-two-
existing-neighbors operation preserving cyclic order".  Inserts `newValue`
between the first adjacent pair `p`,`q`; when no such pair exists the
vector is returned unchanged (the spec presupposes the neighbours
exist). -/
def insertValue (vector : List Int) (newValue p q : Int) : List Int :=
  match adjPairIdx vector p q with
  | some i => vector.take (i + 1) ++ newValue :: vector.drop (i + 1)
  | none => vector

/-- Modelled from the spec: `vAdjCount(vector,u,v)` of the missing `VecR`
library — the number of cyclically adjacent occurrences of the pair
`u`,`v` ("two nodes may connect multiple times"). -/
def vAdjCount (vector : List Int) (u v : Int) : Nat :=
  ((List.range vector.length).filter
    (fun i => (vector.getD i 0 = u &&
               vector.getD ((i + 1) % vector.length) 0 = v) ||
              (vector.getD i 0 = v &&
               vector.getD ((i + 1) % vector.length) 0 = u))).length

/-! ## Connection-type classification (`linked_network.cpp` 349-373) -/

/-- Constant `CNX_TYPE_33` (`linked_network.cpp` line 350). -/
def CNX_TYPE_33 : Int := 33

/-- Constant `CNX_TYPE_44` (`linked_network.cpp` line 351). -/
def CNX_TYPE_44 : Int := 44

/-- Constant `CNX_TYPE_43` (`linked_network.cpp` line 352). -/
def CNX_TYPE_43 : Int := 43

/-- Function `assignValues` (`linked_network.cpp` lines 354-373): classifies the
sampled edge `n0`-`n1` (with coordinations `cnd0`, `cnd1`) into a
connection type and orders the endpoints into `(a, b)`; throws when the
coordinations are not both 3 or 4.  The result triple is
`(a, b, cnxType)`. -/
def assignValues (n0 n1 cnd0 cnd1 : Int) : Except String (Int × Int × Int) :=
  if cnd0 = 3 ∧ cnd1 = 3 then
    Except.ok (n0, n1, CNX_TYPE_33)
  else if cnd0 = 4 ∧ cnd1 = 4 then
    Except.ok (n0, n1, CNX_TYPE_44)
  else if (cnd0 = 3 ∧ cnd1 = 4) ∨ (cnd0 = 4 ∧ cnd1 = 3) then
    Except.ok (if cnd0 = 4 then n0 else n1, if cnd0 = 4 then n1 else n0,
               CNX_TYPE_43)
  else
    Except.error "Error in random connection - incorrect coordinations"

/-! ## The linked dual-network state and the 3-3 switch move -/

/-- Pointwise update of a per-node adjacency map (models in-place mutation
of `networkX.nodes[i].netCnxs`/`dualCnxs`). -/
def upd (f : Int → List Int) (i : Int) (l : List Int) : Int → List Int :=
  fun j => if j = i then l else f j

/-- The adjacency state of the linked pair of networks: per-node `netCnxs`
and `dualCnxs` of network A (atoms) and network B (rings), indexed by node
id. -/
structure LinkedState where
  netA : Int → List Int
  dualA : Int → List Int
  netB : Int → List Int
  dualB : Int → List Int

/-- The A-A part of `switchCnx33` (`linked_network.cpp` lines 1317-1322):
swap a->e/d, b->d/e, d->b/a, e->a/b. -/
def switchCnx33NetA (netA : Int → List Int) (a b d e : Int) :
    Int → List Int :=
  let netA1 := upd netA a (swapValue (netA a) e d)
  let netA2 := upd netA1 b (swapValue (netA1 b) d e)
  let netA3 := upd netA2 d (swapValue (netA2 d) b a)
  upd netA3 e (swapValue (netA3 e) a b)

/-- The A-B part of `switchCnx33` (`linked_network.cpp` lines 1324-1327):
swap a->v/x, b->u/w. -/
def switchCnx33DualA (dualA : Int → List Int) (a b u v w x : Int) :
    Int → List Int :=
  let dualA1 := upd dualA a (swapValue (dualA a) v x)
  upd dualA1 b (swapValue (dualA1 b) u w)

/-- The B-B part of `switchCnx33` (`linked_network.cpp` lines 1329-1358):
break u-v, insert w:u-(x)-v and x:u-(w)-v (with the multi-connection
special cases); `dualA` is the already-updated A-B state the source reads
`eCnxs`/`fCnxs` from. -/
def switchCnx33NetB (netB dualA : Int → List Int) (e f u v w x : Int) :
    Int → List Int :=
  let netB1 := upd netB u (swapValueBetween (netB u) v (-1) w x)
  let netB2 := upd netB1 v (swapValueBetween (netB1 v) u (-1) w x)
  let netB3 := upd netB2 u (delValue (netB2 u) (-1))
  let netB4 := upd netB3 v (delValue (netB3 v) (-1))
  let netB5 :=
    if vAdjCount (netB4 w) u v > 1 then
      let eCnxs := delValue (delValue (dualA e) v) w
      let ww := eCnxs.getD 0 0
      let lw1 := swapValueBetween (netB4 w) v (-1) ww u
      let lw2 := insertValue lw1 x (-1) u
      let lw3 := swapValue lw2 (-1) v
      upd netB4 w lw3
    else
      upd netB4 w (insertValue (netB4 w) x u v)
  if vAdjCount (netB5 x) u v > 1 then
    let fCnxs := delValue (delValue (dualA f) v) x
    let xx := fCnxs.getD 0 0
    let lx1 := swapValueBetween (netB5 x) v (-1) xx u
    let lx2 := insertValue lx1 w (-1) u
    let lx3 := swapValue lx2 (-1) v
    upd netB5 x lx3
  else
    upd netB5 x (insertValue (netB5 x) w u v)

/-- The B-A part of `switchCnx33` (`linked_network.cpp` lines 1360-1365):
break u->b, v->a, insert w:a-(b)-e, x:b-(a)-d. -/
def switchCnx33DualB (dualB : Int → List Int) (a b d e u v w x : Int) :
    Int → List Int :=
  let dualB1 := upd dualB u (delValue (dualB u) b)
  let dualB2 := upd dualB1 v (delValue (dualB1 v) a)
  let dualB3 := upd dualB2 w (insertValue (dualB2 w) b a e)
  upd dualB3 x (insertValue (dualB3 x) a b d)

/-- Function `switchCnx33` (`linked_network.cpp` lines 1253-1416), topological part:
rewires `netCnxs`/`dualCnxs` of both networks for a 3-3 bond switch given
the node ids `a b c d e f` (lattice A) and `u v w x` (lattice B) of the
validated move descriptor.  The cached distribution bookkeeping and the
`networkT` mirror are omitted here (they touch no A/B adjacency list);
every remaining statement of the source is mirrored in order (`c` is
unpacked but, as in the source, not used by the A/B rewiring). -/
def switchCnx33 (st : LinkedState) (a b _c d e f u v w x : Int) :
    LinkedState :=
  let netA := switchCnx33NetA st.netA a b d e
  let dualA := switchCnx33DualA st.dualA a b u v w x
  let netB := switchCnx33NetB st.netB dualA e f u v w x
  let dualB := switchCnx33DualB st.dualB a b d e u v w x
  { netA := netA, dualA := dualA, netB := netB, dualB := dualB }

/-- The ring-bound guard of `generateSwitchIds34` (`linked_network.cpp`
lines 618-623): the move generator returns `false` (rejects the switch)
when a flanking ring `u`,`v` is at the minimum ring size or an opposite
ring `w`,`x` is at the maximum ring size. -/
def switchBoundCheck33 (st : LinkedState) (u v w x : Int)
    (minBCnxs maxBCnxs : Nat) : Bool :=
  if (st.netB u).length = minBCnxs ∨ (st.netB v).length = minBCnxs ∨
     (st.netB w).length = maxBCnxs ∨ (st.netB x).length = maxBCnxs then
    false
  else
    true

/-- Symmetric-adjacency invariant restricted to a carrier list of node
ids: `j ∈ netCnxs(i) ⟺ i ∈ netCnxs(j)` (`checkCnxConsistency`,
`linked_network.cpp` lines 3751-3768). -/
def SymOn (ids : List Int) (adj : Int → List Int) : Prop :=
  ∀ i ∈ ids, ∀ j ∈ ids, ((j ∈ adj i) ↔ (i ∈ adj j))

/-- A concrete ring network (`netCnxs` of network B) used to exercise the
3-3 switch theorems: rings 0,1 are the flanking pair `u`,`v`, rings 2,3
the opposite pair `w`,`x`; every other ring id holds a default 3-ring. -/
def exampleNetB : Int → List Int := fun n =>
  if n = 0 then [2, 1, 3, 5]
  else if n = 1 then [2, 0, 3, 6]
  else if n = 2 then [0, 1, 7, 8]
  else if n = 3 then [0, 1, 9, 10]
  else [100, 101, 102]

/-- A concrete linked state built around `exampleNetB` (network A is a
uniform 3-coordinate adjacency). -/
def exampleState : LinkedState :=
  { netA := fun _ => [1, 2, 3]
  , dualA := fun _ => []
  , netB := exampleNetB
  , dualB := fun _ => [] }

/-- A concrete, mutually symmetric ring adjacency (`netCnxs` of network
B): rings 0,1 flank the switched bond, rings 2,3 are the opposite pair,
rings 4-7 close the neighbourhood symmetrically. -/
def exampleSymNetB : Int → List Int := fun n =>
  if n = 0 then [2, 1, 3, 4]
  else if n = 1 then [2, 0, 3, 5]
  else if n = 2 then [0, 1, 6, 7]
  else if n = 3 then [0, 1, 6, 7]
  else if n = 4 then [0]
  else if n = 5 then [1]
  else if n = 6 then [2, 3]
  else if n = 7 then [2, 3]
  else []

/-- A concrete, mutually symmetric atom adjacency (`netCnxs` of network
A): edges 0-3 (the broken a-e bond) and 1-2 (the broken b-d bond). -/
def exampleSymNetA : Int → List Int := fun n =>
  if n = 0 then [3]
  else if n = 1 then [2]
  else if n = 2 then [1]
  else if n = 3 then [0]
  else []

/-- A concrete linked state whose two networks both satisfy the mutual
adjacency invariant. -/
def exampleSymState : LinkedState :=
  { netA := exampleSymNetA
  , dualA := fun _ => []
  , netB := exampleSymNetB
  , dualB := fun _ => [] }

/-! ## Monte Carlo snapshot and commit (`monteCarloSwitchMove` vs the
LAMMPS variant) -/

/-- The state a Monte Carlo step snapshots before mutating: coordinates,
the node and edge distribution tables of both networks, and the two
networks' adjacency state (`linked_network.cpp` lines 2875-2890 and
2540-2583). -/
structure MCState where
  crds : List Rat
  nodeDistA : List Int
  nodeDistB : List Int
  edgeDistA : List (List Int)
  edgeDistB : List (List Int)
  linked : LinkedState

/-- Write the saved per-node values back for each touched id, in order
(the `networkX.nodes[ids[i]] = saveNodes[i]` restore loops). -/
def restoreNodes (post pre : Int → List Int) (ids : List Int) :
    Int → List Int :=
  ids.foldl (fun acc i => upd acc i (pre i)) post

/-- Restore both networks' touched nodes from the snapshot
(`linked_network.cpp` lines 2945-2950 / 2785-2790). -/
def restoreLinked (post pre : LinkedState) (idsA idsB : List Int) :
    LinkedState :=
  { netA := restoreNodes post.netA pre.netA idsA
  , dualA := restoreNodes post.dualA pre.dualA idsA
  , netB := restoreNodes post.netB pre.netB idsB
  , dualB := restoreNodes post.dualB pre.dualB idsB }

/-- Restore the full snapshot: coordinates, the four distribution tables,
and the touched nodes (`linked_network.cpp` lines 2939-2950 /
2779-2790). -/
def restoreSnapshot (post pre : MCState) (idsA idsB : List Int) : MCState :=
  { crds := pre.crds
  , nodeDistA := pre.nodeDistA
  , nodeDistB := pre.nodeDistB
  , edgeDistA := pre.edgeDistA
  , edgeDistB := pre.edgeDistB
  , linked := restoreLinked post.linked pre.linked idsA idsB }

/-- The accept/reject commit of `monteCarloSwitchMove`
(`linked_network.cpp` lines 2936-2954), exactly as written: when
`isAccepted` is `true` the snapshot is written back over the mutated
state; when `isAccepted` is `false` the mutated state is kept (the
`else` branch only syncs coordinates). -/
def monteCarloSwitchMoveCommit (isAccepted : Bool) (pre post : MCState)
    (idsA idsB : List Int) : MCState :=
  if isAccepted then restoreSnapshot post pre idsA idsB else post

/-- The accept/reject commit of `monteCarloSwitchMoveLAMMPS`
(`linked_network.cpp` lines 2756-2829): when `isAccepted` is `true` the
mutated state is kept (coordinates synced); when `isAccepted` is `false`
the snapshot is written back. -/
def monteCarloSwitchMoveLAMMPSCommit (isAccepted : Bool) (pre post : MCState)
    (idsA idsB : List Int) : MCState :=
  if isAccepted then post else restoreSnapshot post pre idsA idsB

/-- The pre-move state of a concrete 3-3 switch step. -/
def exampleMCPre : MCState :=
  { crds := [0, 0]
  , nodeDistA := [4]
  , nodeDistB := [8]
  , edgeDistA := [[4]]
  , edgeDistB := [[8]]
  , linked := exampleSymState }

/-- The post-move (mutated, re-optimised) state of the same step: the 3-3
switch of `exampleSymState` at `a,b = 0,1`, `u,v,w,x = 0,1,2,3`, with
moved coordinates and updated distribution tables. -/
def exampleMCPost : MCState :=
  { crds := [1, 1]
  , nodeDistA := [4]
  , nodeDistB := [8]
  , edgeDistA := [[4]]
  , edgeDistB := [[8]]
  , linked := switchCnx33 exampleSymState 0 1 9 2 3 8 0 1 2 3 }

/-- The touched node-id lists (`switchIdsA`, `switchIdsB`) of that
step. -/
def exampleIdsA : List Int := [0, 1, 9, 2, 3, 8]

/-- The touched ring-id list of that step. -/
def exampleIdsB : List Int := [0, 1, 2, 3]

/-! ## The 3/4-coordinate edge picker (`pickRandomCnx34`, lines 389-448) -/

/-- One iteration's worth of random draws in `pickRandomCnx34`: the
uniformly drawn node id, the drawn connection index, and the drawn
direction bit. -/
structure PickDraw where
  node0 : Int
  cnxIdx : Nat
  direction : Nat

/-- Function `pickRandomCnx34` (`linked_network.cpp` lines 389-448) with the random
number generator replaced by the finite draw list `draws` (one entry per
loop iteration; an exhausted draw list is reported as its own error, an
artifact of the finite modelling).  Each iteration samples an edge
`node0`-`node1`, classifies it with `assignValues`, computes the common
dual nodes of the two endpoints, throws immediately when their count is
not 2, and otherwise retries only when a fixed ring contains an
endpoint.  The successful result is `(a, b, u, v, cnxType)`. -/
def pickRandomCnx34 (st : LinkedState) (fixedRings : List Int) :
    List PickDraw → Except String (Int × Int × Int × Int × Int)
  | [] => Except.error "out of random draws"
  | dr :: rest =>
    let node0 := dr.node0
    let cnd0 := (st.netA node0).length
    let node1 := (st.netA node0).getD (dr.cnxIdx % cnd0) 0
    let cnd1 := (st.netA node1).length
    match assignValues node0 node1 (cnd0 : Int) (cnd1 : Int) with
    | Except.error msg => Except.error msg
    | Except.ok (a, b, cnxType) =>
      let commonNodes := vCommonValues (st.dualA a) (st.dualA b)
      if commonNodes.length = 2 then
        let u := commonNodes.getD (dr.direction % 2) 0
        let v := commonNodes.getD (1 - dr.direction % 2) 0
        if fixedRings.any
            (fun r => vContains (st.dualB r) a || vContains (st.dualB r) b)
        then
          pickRandomCnx34 st fixedRings rest
        else
          Except.ok (a, b, u, v, cnxType)
      else
        Except.error "Error in random connection - incorrect dual ids"

/-- A concrete state in which the first sampled edge 0-1 (both
3-coordinate) has exactly one common dual node (7) instead of two. -/
def exampleBadDualState : LinkedState :=
  { netA := fun n => if n = 0 then [1, 2, 3] else if n = 1 then [0, 4, 5]
      else []
  , dualA := fun n => if n = 0 then [7, 8] else if n = 1 then [7, 9]
      else []
  , netB := fun _ => []
  , dualB := fun _ => [] }

/-! ## The common-neighbour query (`findAssociatedNodeAB`, lines
1141-1199) -/

/-- The second fallback of `findAssociatedNodeAB` (lines 1170-1185): walk
the ring's `dualCnxs` looking for `idDel`; when `idA` is its cyclic
successor (resp. predecessor) the candidate two steps over is checked
against `common1`.  When neither neighbour is `idA` the source reads an
uninitialised index (undefined behaviour); that case contributes no
candidate here. -/
def findAssociatedFallback2 (ring : List Int) (idA idDel : Int)
    (common1 : List Int) : Option Int :=
  ((List.range ring.length).filterMap (fun i =>
    if ring.getD i 0 = idDel then
      if ring.getD ((i + 1) % ring.length) 0 = idA then
        let cand := ring.getD ((i + 2) % ring.length) 0
        if vContains common1 cand then some cand else none
      else if ring.getD ((i + ring.length - 1) % ring.length) 0 = idA then
        let cand := ring.getD ((i + ring.length - 2) % ring.length) 0
        if vContains common1 cand then some cand else none
      else none
    else none)).head?

/-- Function `findAssociatedNodeAB` (`linked_network.cpp` lines 1141-1199): find
the node that is a network neighbour of `idA` and listed in ring `idB`'s
dual connections, excluding `idDel`.  When the candidate set has size 1
its element is returned; otherwise the cyclic neighbours of `idDel`
around `idA` filter the set (first fallback), then the ring-walk second
fallback runs; only when all of these fail does the function abort
(`exit(9)`). -/
def findAssociatedNodeAB (st : LinkedState) (idA idB idDel : Int) :
    Except String Int :=
  let common := delValue (vCommonValues (st.netA idA) (st.dualB idB)) idDel
  if common.length = 1 then
    Except.ok (common.getD 0 0)
  else
    let common1 :=
      match (List.range (st.netA idA).length).find?
          (fun i => (st.netA idA).getD i 0 = idDel) with
      | some i =>
        let n := (st.netA idA).length
        let l := (st.netA idA).getD ((i + 1) % n) 0
        let r := (st.netA idA).getD ((i + n - 1) % n) 0
        common.filter (fun c => c = l || c = r)
      | none => []
    if common1.length = 1 then
      Except.ok (common1.getD 0 0)
    else
      match findAssociatedFallback2 (st.dualB idB) idA idDel common1 with
      | some cand => Except.ok cand
      | none => Except.error "ERROR IN ASSOCIATED NODE"

/-- A concrete state in which the candidate set of
`findAssociatedNodeAB 10 5 20` has two elements (30 and 50) but the first
cyclic fallback keeps only 30. -/
def exampleAmbiguousState : LinkedState :=
  { netA := fun n => if n = 10 then [20, 30, 50, 60] else []
  , dualA := fun _ => []
  , netB := fun _ => []
  , dualB := fun n => if n = 5 then [20, 30, 50] else [] }

/-- A concrete state in which the candidate set of
`findAssociatedNodeAB 10 5 20` is the singleton 30. -/
def exampleUniqueState : LinkedState :=
  { netA := fun n => if n = 10 then [20, 30, 50, 60] else []
  , dualA := fun _ => []
  , netB := fun _ => []
  , dualB := fun n => if n = 5 then [20, 30] else [] }

/-! ## Move-selection retry loops (`linked_network.cpp` 2500-2513,
2862-2873, 2144-2159) -/

/-- The move-search loop of `monteCarloSwitchMove` /
`monteCarloSwitchMoveLAMMPS`: selection is attempted up to
`numNodesA * numNodesA` times (`attempt i` abstracts whether iteration
`i`'s pick-and-`generateSwitchIds34` finds a valid move); when every
attempt fails a runtime error is thrown.  Returns the first successful
iteration. -/
def monteCarloMoveSearch (numNodesA : Nat) (attempt : Nat → Bool) :
    Except String Nat :=
  match (List.range (numNodesA * numNodesA)).find? (fun i => attempt i) with
  | some i => Except.ok i
  | none => Except.error "Cannot find any valid switch moves"

/-- The move-search loop of `SpiralmonteCarloSwitchMoveLAMMPS`
(`linked_network.cpp` lines 2144-2159): selection is attempted at most 10
times; when every attempt fails the routine logs a warning and returns
the zero status vector — `Except.ok none` here — instead of throwing. -/
def spiralMoveSearch (attempt : Nat → Bool) : Except String (Option Nat) :=
  match (List.range 10).find? (fun i => attempt i) with
  | some i => Except.ok (some i)
  | none => Except.ok none

/-! ## Convexity check (`checkConvexity`, lines 3943-3984) -/

/-- The periodic-boundary-corrected vector from node `id0` to node `id1`
(`linked_network.cpp` lines 3965-3974): component-wise difference minus
the box size times the rounded image count (`nearbyint`).  Coordinates
are idealised as rationals. -/
def pbcVector (crds : Int → Rat × Rat) (pb rpb : Rat × Rat)
    (id0 id1 : Int) : Rat × Rat :=
  let vx := (crds id1).1 - (crds id0).1
  let vy := (crds id1).2 - (crds id0).2
  (vx - pb.1 * ((round (vx * rpb.1) : Int) : Rat),
   vy - pb.2 * ((round (vy * rpb.2) : Int) : Rat))

/-- Function `checkConvexity(id)` (`linked_network.cpp` lines 3944-3984): sum, over
the cyclically adjacent neighbour pairs of `id` in `netCnxs` order, the
angle between the two periodic-corrected bond vectors, and compare the
total against `2π` with tolerance `1e-12` (strict `<`, as in the source).
The angle function `ang` abstracts `vAngle` (acos of the normalised dot
product, from the vector library whose source is not under `src/`) and
`twoPi` abstracts the irrational `2 * M_PI`. -/
def checkConvexity (ang : Rat × Rat → Rat × Rat → Rat)
    (crds : Int → Rat × Rat) (netCnxs : Int → List Int) (pb rpb : Rat × Rat)
    (id : Int) (twoPi : Rat) : Bool :=
  let cnd := (netCnxs id).length
  let angleSum := (List.range cnd).foldl
    (fun s i =>
      let j := (i + 1) % cnd
      let id1 := (netCnxs id).getD i 0
      let id2 := (netCnxs id).getD j 0
      s + ang (pbcVector crds pb rpb id id1) (pbcVector crds pb rpb id id2))
    0
  |angleSum - twoPi| < 1 / 1000000000000

/-- The interior-angle sum stated the way the spec words it: the angles
between cyclically adjacent bond vectors around the node, enumerated by
pairing the neighbour list with its rotation by one. -/
def interiorAngleSum (ang : Rat × Rat → Rat × Rat → Rat)
    (crds : Int → Rat × Rat) (netCnxs : Int → List Int) (pb rpb : Rat × Rat)
    (id : Int) : Rat :=
  (((netCnxs id).zip ((netCnxs id).rotate 1)).map
    (fun p => ang (pbcVector crds pb rpb id p.1)
                  (pbcVector crds pb rpb id p.2))).sum

/-! ## Distance-biased selection weights (`makerFixed`, lines 2094-2121,
and `pickDiscreteCnx34`, lines 2271-2288) -/

/-- Function `makerFixed` (`linked_network.cpp` lines 2094-2121): for every node of
network A, compute its Euclidean distance `r` from the centre of the
first fixed ring and append the weight `1000 / r` to the selection weight
list.  The per-node distances are taken as the input list `rs` (the
square root producing them is irrational in general and is outside this
embedding); the weight derived from each distance is exactly
`1000 / r`. -/
def makerFixed (weights rs : List Rat) : List Rat :=
  weights ++ rs.map (fun r => 1000 / r)

/-- The probability with which `std::discrete_distribution` (used on
`weights` in `pickDiscreteCnx34`, line 2276) draws index `i`: the weight
divided by the sum of all weights. -/
def discreteProb (weights : List Rat) (i : Nat) : Rat :=
  weights.getD i 0 / weights.sum

/-! # Theorems -/

/-! ## Helper lemmas about the vector operations -/

theorem getD_mem_of_lt (l : List Int) (i : Nat) (d : Int)
    (h : i < l.length) : l.getD i d ∈ l := by
  rw [List.getD_eq_getElem l d h]
  exact List.getElem_mem h

theorem betweenAt_eq_false (l : List Int) (i : Nat) (o p q : Int)
    (h : l.getD i 0 ≠ o) : betweenAt l i o p q = false := by
  unfold betweenAt
  rw [decide_eq_false h, Bool.false_and]

theorem val_of_betweenAt (l : List Int) (i : Nat) (o p q : Int)
    (h : betweenAt l i o p q = true) : l.getD i 0 = o := by
  unfold betweenAt at h
  rcases Bool.and_eq_true_iff.mp h with ⟨h1, _⟩
  exact of_decide_eq_true h1

theorem length_swapValue (l : List Int) (o n : Int) :
    (swapValue l o n).length = l.length := by
  simp [swapValue]

theorem mem_swapValue_iff (l : List Int) (o n y : Int) :
    y ∈ swapValue l o n ↔ ((y ∈ l ∧ y ≠ o) ∨ (o ∈ l ∧ y = n)) := by
  simp only [swapValue, List.mem_map]
  constructor
  · rintro ⟨t, ht, hty⟩
    by_cases hto : t = o
    · subst hto
      rw [if_pos rfl] at hty
      exact Or.inr ⟨ht, hty.symm⟩
    · rw [if_neg hto] at hty
      subst hty
      exact Or.inl ⟨ht, hto⟩
  · rintro (⟨hy, hne⟩ | ⟨ho, hn⟩)
    · exact ⟨y, hy, by rw [if_neg hne]⟩
    · exact ⟨o, ho, by rw [if_pos rfl, hn]⟩

theorem length_swapValueBetween (l : List Int) (o n p q : Int) :
    (swapValueBetween l o n p q).length = l.length := by
  simp [swapValueBetween]

theorem mem_swapValueBetween_of_ne (l : List Int) (o n p q y : Int)
    (hyo : y ≠ o) (hyn : y ≠ n) :
    y ∈ swapValueBetween l o n p q ↔ y ∈ l := by
  simp only [swapValueBetween, List.mem_map, List.mem_range]
  constructor
  · rintro ⟨i, hi, hval⟩
    by_cases hb : betweenAt l i o p q
    · rw [if_pos hb] at hval
      exact absurd hval.symm hyn
    · rw [if_neg hb] at hval
      rw [← hval]
      exact getD_mem_of_lt l i 0 hi
  · intro hy
    obtain ⟨i, hi, hval⟩ := List.mem_iff_getElem.mp hy
    refine ⟨i, hi, ?_⟩
    have hgd : l.getD i 0 = y := by
      rw [List.getD_eq_getElem l 0 hi, hval]
    have hb : betweenAt l i o p q = false :=
      betweenAt_eq_false l i o p q (by rw [hgd]; exact hyo)
    rw [hb]
    simpa using hgd

theorem not_mem_swapValueBetween (l : List Int) (o n p q : Int)
    (hon : o ≠ n)
    (hall : ∀ i, i < l.length → l.getD i 0 = o → betweenAt l i o p q) :
    o ∉ swapValueBetween l o n p q := by
  simp only [swapValueBetween, List.mem_map, List.mem_range]
  rintro ⟨i, hi, hval⟩
  by_cases hb : betweenAt l i o p q
  · rw [if_pos hb] at hval
    exact hon hval.symm
  · rw [if_neg hb] at hval
    exact hb (hall i hi hval)

theorem count_new_swapValueBetween (l : List Int) (o n p q : Int)
    (hn : n ∉ l) :
    (swapValueBetween l o n p q).count n = countBetween l o p q := by
  unfold swapValueBetween countBetween
  rw [List.count_eq_countP, List.countP_map, ← List.countP_eq_length_filter]
  refine List.countP_congr ?_
  intro i hi
  have hilt : i < l.length := List.mem_range.mp hi
  have hgd : l.getD i 0 ≠ n := by
    intro hcontra
    exact hn (hcontra ▸ getD_mem_of_lt l i 0 hilt)
  by_cases hb : betweenAt l i o p q
  · simp only [Function.comp_apply, hb, if_true]
    simp [hb]
  · simp only [Function.comp_apply, hb, if_false]
    constructor
    · intro hcontra
      exact absurd (by simpa using hcontra) hgd
    · intro hcontra
      exact absurd hcontra (by simp [hb])

theorem mem_delValue (l : List Int) (v y : Int) :
    y ∈ delValue l v ↔ (y ∈ l ∧ y ≠ v) := by
  simp [delValue]

theorem length_delValue (l : List Int) (v : Int) :
    (delValue l v).length = l.length - l.count v := by
  unfold delValue
  rw [← List.countP_eq_length_filter, List.count_eq_countP]
  have h := List.length_eq_countP_add_countP (fun t : Int => t == v) l
  have hc : List.countP (fun t : Int => t ≠ v) l
      = List.countP (fun t : Int => ¬(t == v) = true) l := by
    refine List.countP_congr ?_
    intro t _
    simp
  omega

theorem adjPairIdx_lt (l : List Int) (p q : Int) (i : Nat)
    (h : adjPairIdx l p q = some i) : i < l.length := by
  unfold adjPairIdx at h
  have := List.find?_some h
  have hmem := List.mem_of_find?_eq_some h
  exact List.mem_range.mp hmem

theorem adjPairIdx_fst_mem (l : List Int) (p q : Int) (i : Nat)
    (h : adjPairIdx l p q = some i) : p ∈ l := by
  have hlt := adjPairIdx_lt l p q i h
  unfold adjPairIdx at h
  have hpred := List.find?_some h
  simp only [Bool.and_eq_true, decide_eq_true_eq] at hpred
  rw [← hpred.1]
  exact getD_mem_of_lt l i 0 hlt

theorem length_insertValue_found (l : List Int) (nw p q : Int) (i : Nat)
    (h : adjPairIdx l p q = some i) :
    (insertValue l nw p q).length = l.length + 1 := by
  have hlt := adjPairIdx_lt l p q i h
  unfold insertValue
  rw [h]
  simp only [List.length_append, List.length_cons, List.length_take,
    List.length_drop]
  omega

theorem mem_insertValue_found (l : List Int) (nw p q y : Int) (i : Nat)
    (h : adjPairIdx l p q = some i) :
    y ∈ insertValue l nw p q ↔ (y = nw ∨ y ∈ l) := by
  unfold insertValue
  rw [h]
  constructor
  · intro hy
    rcases List.mem_append.mp hy with hy | hy
    · exact Or.inr (List.mem_of_mem_take hy)
    · rcases List.mem_cons.mp hy with hy | hy
      · exact Or.inl hy
      · exact Or.inr (List.mem_of_mem_drop hy)
  · intro hy
    rcases hy with hy | hy
    · subst hy
      exact List.mem_append.mpr (Or.inr (List.mem_cons_self _ _))
    · have hsplit : l = l.take (i + 1) ++ l.drop (i + 1) :=
        (List.take_append_drop (i + 1) l).symm
      rcases List.mem_append.mp (hsplit ▸ hy) with hy | hy
      · exact List.mem_append.mpr (Or.inl hy)
      · exact List.mem_append.mpr (Or.inr (List.mem_cons_of_mem _ hy))

theorem upd_same (g : Int → List Int) (i : Int) (l : List Int) :
    upd g i l i = l := by
  simp [upd]

theorem upd_ne (g : Int → List Int) (i : Int) (l : List Int) (j : Int)
    (h : j ≠ i) : upd g i l j = g j := by
  simp [upd, h]

/-! ## Pointwise evaluation of the 3-3 switch components -/

theorem switchCnx33NetA_at (netA : Int → List Int) (a b d e : Int)
    (hab : a ≠ b) (had : a ≠ d) (hae : a ≠ e) (hbd : b ≠ d) (hbe : b ≠ e)
    (hde : d ≠ e) :
    (switchCnx33NetA netA a b d e a = swapValue (netA a) e d)
    ∧ (switchCnx33NetA netA a b d e b = swapValue (netA b) d e)
    ∧ (switchCnx33NetA netA a b d e d = swapValue (netA d) b a)
    ∧ (switchCnx33NetA netA a b d e e = swapValue (netA e) a b)
    ∧ (∀ n, n ≠ a → n ≠ b → n ≠ d → n ≠ e →
        switchCnx33NetA netA a b d e n = netA n) := by
  refine ⟨?_, ?_, ?_, ?_, ?_⟩
  · unfold switchCnx33NetA
    simp [upd, hab, had, hae]
  · unfold switchCnx33NetA
    simp [upd, Ne.symm hab, hbd, hbe]
  · unfold switchCnx33NetA
    simp [upd, Ne.symm had, Ne.symm hbd, hde]
  · unfold switchCnx33NetA
    simp [upd, Ne.symm hae, Ne.symm hbe, Ne.symm hde]
  · intro n hna hnb hnd hne
    unfold switchCnx33NetA
    simp [upd, hna, hnb, hnd, hne]

theorem switchCnx33NetB_at (netB dualA : Int → List Int) (e f u v w x : Int)
    (huv : u ≠ v) (huw : u ≠ w) (hux : u ≠ x) (hvw : v ≠ w) (hvx : v ≠ x)
    (hwx : w ≠ x)
    (hws : vAdjCount (netB w) u v ≤ 1) (hxs : vAdjCount (netB x) u v ≤ 1) :
    (switchCnx33NetB netB dualA e f u v w x u
      = delValue (swapValueBetween (netB u) v (-1) w x) (-1))
    ∧ (switchCnx33NetB netB dualA e f u v w x v
      = delValue (swapValueBetween (netB v) u (-1) w x) (-1))
    ∧ (switchCnx33NetB netB dualA e f u v w x w
      = insertValue (netB w) x u v)
    ∧ (switchCnx33NetB netB dualA e f u v w x x
      = insertValue (netB x) w u v)
    ∧ (∀ n, n ≠ u → n ≠ v → n ≠ w → n ≠ x →
        switchCnx33NetB netB dualA e f u v w x n = netB n) := by
  have hwc : ¬(vAdjCount (netB w) u v > 1) := by omega
  have hxc : ¬(vAdjCount (netB x) u v > 1) := by omega
  refine ⟨?_, ?_, ?_, ?_, ?_⟩
  · unfold switchCnx33NetB
    simp [upd, huv, huw, hux, hvw, hvx, hwx, Ne.symm huv, Ne.symm huw,
      Ne.symm hux, Ne.symm hvw, Ne.symm hvx, Ne.symm hwx, hwc, hxc]
  · unfold switchCnx33NetB
    simp [upd, huv, huw, hux, hvw, hvx, hwx, Ne.symm huv, Ne.symm huw,
      Ne.symm hux, Ne.symm hvw, Ne.symm hvx, Ne.symm hwx, hwc, hxc]
  · unfold switchCnx33NetB
    simp [upd, huv, huw, hux, hvw, hvx, hwx, Ne.symm huv, Ne.symm huw,
      Ne.symm hux, Ne.symm hvw, Ne.symm hvx, Ne.symm hwx, hwc, hxc]
  · unfold switchCnx33NetB
    simp [upd, huv, huw, hux, hvw, hvx, hwx, Ne.symm huv, Ne.symm huw,
      Ne.symm hux, Ne.symm hvw, Ne.symm hvx, Ne.symm hwx, hwc, hxc]
  · intro n hnu hnv hnw hnx
    unfold switchCnx33NetB
    simp [upd, hnu, hnv, hnw, hnx, huv, huw, hux, hvw, hvx, hwx,
      Ne.symm huv, Ne.symm huw, Ne.symm hux, Ne.symm hvw, Ne.symm hvx,
      Ne.symm hwx, hwc, hxc]

/-! ## The break composite (swap-to-sentinel then delete) -/

theorem length_breakCnx (l : List Int) (v w x : Int) (hs : (-1) ∉ l) :
    (delValue (swapValueBetween l v (-1) w x) (-1)).length
      = l.length - countBetween l v w x := by
  rw [length_delValue, length_swapValueBetween,
    count_new_swapValueBetween l v (-1) w x hs]

theorem mem_breakCnx_of_ne (l : List Int) (v w x y : Int)
    (hyv : y ≠ v) (hy1 : y ≠ -1) :
    y ∈ delValue (swapValueBetween l v (-1) w x) (-1) ↔ y ∈ l := by
  rw [mem_delValue]
  constructor
  · rintro ⟨h, _⟩
    exact (mem_swapValueBetween_of_ne l v (-1) w x y hyv hy1).mp h
  · intro h
    exact ⟨(mem_swapValueBetween_of_ne l v (-1) w x y hyv hy1).mpr h, hy1⟩

theorem not_mem_breakCnx_old (l : List Int) (v w x : Int) (hv1 : v ≠ -1)
    (hall : ∀ i, i < l.length → l.getD i 0 = v → betweenAt l i v w x) :
    v ∉ delValue (swapValueBetween l v (-1) w x) (-1) := by
  rw [mem_delValue]
  rintro ⟨hmem, _⟩
  exact not_mem_swapValueBetween l v (-1) w x hv1 hall hmem

/-- Claim C10: for all vectors `v1` and `v2`, `intersectVectors v1 v2`
returns exactly the elements of `v1` that also occur in `v2`, preserving
their order and multiplicity from `v1`: each element present in `v2`
appears as many times as in `v1`, elements absent from `v2` do not appear,
and the result is a sublist (order-preserving selection) of `v1`. -/
theorem intersectVectors_spec (v1 v2 : List Int) :
    (∀ x : Int,
      (intersectVectors v1 v2).count x = if x ∈ v2 then v1.count x else 0)
    ∧ (intersectVectors v1 v2).Sublist v1 := by
  constructor
  · intro x
    unfold intersectVectors
    by_cases h : x ∈ v2
    · rw [if_pos h]
      exact List.count_filter (by simpa using h)
    · rw [if_neg h]
      refine List.count_eq_zero.mpr ?_
      intro hmem
      exact h (by simpa using (List.mem_filter.mp hmem).2)
  · exact List.filter_sublist v1

/-- Claim C9: `assignValues` (the classification core of the 3/4
coordinate edge picker `pickRandomCnx34`) succeeds exactly when both
endpoint coordinations lie in 3,4; on success the connection type is
33, 44 or 43, and in the 43 case the first returned endpoint `a` is the
4-coordinate one; otherwise it throws a runtime error. -/
theorem assignValues_classifies (n0 n1 cnd0 cnd1 : Int) :
    ((∃ r, assignValues n0 n1 cnd0 cnd1 = Except.ok r) ↔
      ((cnd0 = 3 ∨ cnd0 = 4) ∧ (cnd1 = 3 ∨ cnd1 = 4)))
    ∧ (∀ a b t, assignValues n0 n1 cnd0 cnd1 = Except.ok (a, b, t) →
        (t = 33 ∨ t = 44 ∨ t = 43)
        ∧ (t = 43 →
            ((a = n0 ∧ b = n1 ∧ cnd0 = 4 ∧ cnd1 = 3) ∨
             (a = n1 ∧ b = n0 ∧ cnd0 = 3 ∧ cnd1 = 4)))) := by
  unfold assignValues CNX_TYPE_33 CNX_TYPE_44 CNX_TYPE_43
  constructor
  · constructor
    · intro hex
      obtain ⟨r, hr⟩ := hex
      by_cases h33 : cnd0 = 3 ∧ cnd1 = 3
      · exact ⟨Or.inl h33.1, Or.inl h33.2⟩
      · by_cases h44 : cnd0 = 4 ∧ cnd1 = 4
        · exact ⟨Or.inr h44.1, Or.inr h44.2⟩
        · by_cases h43 : (cnd0 = 3 ∧ cnd1 = 4) ∨ (cnd0 = 4 ∧ cnd1 = 3)
          · rcases h43 with ⟨h0, h1⟩ | ⟨h0, h1⟩
            · exact ⟨Or.inl h0, Or.inr h1⟩
            · exact ⟨Or.inr h0, Or.inl h1⟩
          · rw [if_neg h33, if_neg h44, if_neg h43] at hr
            exact absurd hr (by simp)
    · rintro ⟨h0, h1⟩
      rcases h0 with h0 | h0 <;> rcases h1 with h1 | h1 <;>
        simp [h0, h1]
  · intro a b t hok
    by_cases h33 : cnd0 = 3 ∧ cnd1 = 3
    · rw [if_pos h33] at hok
      obtain ⟨ha, hb, ht⟩ := by
        simpa using hok
      subst ht
      refine ⟨Or.inl rfl, ?_⟩
      intro hcontra
      exact absurd hcontra (by decide)
    · by_cases h44 : cnd0 = 4 ∧ cnd1 = 4
      · rw [if_neg h33, if_pos h44] at hok
        obtain ⟨ha, hb, ht⟩ := by
          simpa using hok
        subst ht
        refine ⟨Or.inr (Or.inl rfl), ?_⟩
        intro hcontra
        exact absurd hcontra (by decide)
      · by_cases h43 : (cnd0 = 3 ∧ cnd1 = 4) ∨ (cnd0 = 4 ∧ cnd1 = 3)
        · rw [if_neg h33, if_neg h44, if_pos h43] at hok
          obtain ⟨ha, hb, ht⟩ := by
            simpa using hok
          subst ht
          refine ⟨Or.inr (Or.inr rfl), ?_⟩
          intro _
          rcases h43 with ⟨h0, h1⟩ | ⟨h0, h1⟩
          · have hne : ¬(cnd0 = 4) := by omega
            rw [if_neg hne] at ha hb
            exact Or.inr ⟨ha.symm, hb.symm, h0, h1⟩
          · rw [if_pos h0] at ha hb
            exact Or.inl ⟨ha.symm, hb.symm, h0, h1⟩
        · rw [if_neg h33, if_neg h44, if_neg h43] at hok
          exact absurd hok (by simp)

/-- Witness for C9: applying `assignValues_classifies` at the concrete
input `n0 = 7, n1 = 9, cnd0 = 4, cnd1 = 3` (a 4-3 edge). -/
theorem assignValues_classifies_witness :
    ((43 : Int) = 33 ∨ (43 : Int) = 44 ∨ (43 : Int) = 43)
    ∧ ((43 : Int) = 43 →
        (((7 : Int) = 7 ∧ (9 : Int) = 9 ∧ (4 : Int) = 4 ∧ (3 : Int) = 3) ∨
         ((7 : Int) = 9 ∧ (9 : Int) = 7 ∧ (4 : Int) = 3 ∧ (3 : Int) = 4))) :=
  (assignValues_classifies 7 9 4 3).2 7 9 43 rfl

theorem switchCnx33NetA_length (netA : Int → List Int) (a b d e : Int)
    (n : Int) :
    (switchCnx33NetA netA a b d e n).length = (netA n).length := by
  unfold switchCnx33NetA
  simp only [upd]
  split_ifs <;> simp_all [length_swapValue]

theorem countBetween_le_length (l : List Int) (o p q : Int) :
    countBetween l o p q ≤ l.length := by
  unfold countBetween
  calc ((List.range l.length).filter
          (fun i => betweenAt l i o p q)).length
      ≤ (List.range l.length).length := List.length_filter_le _ _
    _ = l.length := List.length_range _

theorem switchBoundCheck33_iff (st : LinkedState) (u v w x : Int)
    (minB maxB : Nat) :
    switchBoundCheck33 st u v w x minB maxB = true ↔
      ((st.netB u).length ≠ minB ∧ (st.netB v).length ≠ minB ∧
       (st.netB w).length ≠ maxB ∧ (st.netB x).length ≠ maxB) := by
  unfold switchBoundCheck33
  by_cases h : (st.netB u).length = minB ∨ (st.netB v).length = minB ∨
      (st.netB w).length = maxB ∨ (st.netB x).length = maxB
  · rw [if_pos h]
    simp only [Bool.false_eq_true, false_iff]
    tauto
  · rw [if_neg h]
    push_neg at h
    simp only [true_iff]
    tauto

/-- Claim C3: for a committed 3-3 switch move, every network-B node's ring
size and every network-A node's coordination stay within their bounds,
provided the pre-move state satisfied them: the `generateSwitchIds34`
guard rejects a switch whose flanking rings `u`,`v` are at the minimum
ring size or whose opposite rings `w`,`x` are at the maximum ring size,
and the applied switch changes exactly those four ring sizes by one (down
for `u`,`v`, up for `w`,`x`), leaving every other ring and every atom
coordination unchanged in size. -/
theorem switchCnx33_ring_bounds
    (st : LinkedState) (a b c d e f u v w x : Int)
    (minA maxA minB maxB : Nat)
    (hpreA : ∀ n : Int,
      minA ≤ (st.netA n).length ∧ (st.netA n).length ≤ maxA)
    (hpreB : ∀ n : Int,
      minB ≤ (st.netB n).length ∧ (st.netB n).length ≤ maxB)
    (hguard : switchBoundCheck33 st u v w x minB maxB = true)
    (huv : u ≠ v) (huw : u ≠ w) (hux : u ≠ x)
    (hvw : v ≠ w) (hvx : v ≠ x) (hwx : w ≠ x)
    (hu1 : (-1 : Int) ∉ st.netB u) (hv1 : (-1 : Int) ∉ st.netB v)
    (hubet : countBetween (st.netB u) v w x = 1)
    (hvbet : countBetween (st.netB v) u w x = 1)
    (hws : vAdjCount (st.netB w) u v ≤ 1)
    (hxs : vAdjCount (st.netB x) u v ≤ 1)
    (hwins : ∃ i, adjPairIdx (st.netB w) u v = some i)
    (hxins : ∃ i, adjPairIdx (st.netB x) u v = some i) :
    (∀ n : Int,
      minA ≤ ((switchCnx33 st a b c d e f u v w x).netA n).length ∧
        ((switchCnx33 st a b c d e f u v w x).netA n).length ≤ maxA)
    ∧ (∀ n : Int,
      minB ≤ ((switchCnx33 st a b c d e f u v w x).netB n).length ∧
        ((switchCnx33 st a b c d e f u v w x).netB n).length ≤ maxB)
    ∧ ((switchCnx33 st a b c d e f u v w x).netB u).length + 1
        = (st.netB u).length
    ∧ ((switchCnx33 st a b c d e f u v w x).netB v).length + 1
        = (st.netB v).length
    ∧ ((switchCnx33 st a b c d e f u v w x).netB w).length
        = (st.netB w).length + 1
    ∧ ((switchCnx33 st a b c d e f u v w x).netB x).length
        = (st.netB x).length + 1
    ∧ (∀ n : Int, n ≠ u → n ≠ v → n ≠ w → n ≠ x →
        (switchCnx33 st a b c d e f u v w x).netB n = st.netB n) := by
  obtain ⟨hgu, hgv, hgw, hgx⟩ := (switchBoundCheck33_iff st u v w x minB maxB).mp hguard
  have hnetB : (switchCnx33 st a b c d e f u v w x).netB
      = switchCnx33NetB st.netB (switchCnx33DualA st.dualA a b u v w x)
          e f u v w x := rfl
  have hnetA : (switchCnx33 st a b c d e f u v w x).netA
      = switchCnx33NetA st.netA a b d e := rfl
  obtain ⟨hBu, hBv, hBw, hBx, hBn⟩ :=
    switchCnx33NetB_at st.netB (switchCnx33DualA st.dualA a b u v w x)
      e f u v w x huv huw hux hvw hvx hwx hws hxs
  obtain ⟨iw, hiw⟩ := hwins
  obtain ⟨ix, hix⟩ := hxins
  have hluOld : minB ≤ (st.netB u).length ∧ (st.netB u).length ≤ maxB :=
    hpreB u
  have hlvOld : minB ≤ (st.netB v).length ∧ (st.netB v).length ≤ maxB :=
    hpreB v
  have hlwOld : minB ≤ (st.netB w).length ∧ (st.netB w).length ≤ maxB :=
    hpreB w
  have hlxOld : minB ≤ (st.netB x).length ∧ (st.netB x).length ≤ maxB :=
    hpreB x
  have hlu : ((switchCnx33 st a b c d e f u v w x).netB u).length
      = (st.netB u).length - 1 := by
    rw [hnetB, hBu, length_breakCnx (st.netB u) v w x hu1, hubet]
  have hlv : ((switchCnx33 st a b c d e f u v w x).netB v).length
      = (st.netB v).length - 1 := by
    rw [hnetB, hBv, length_breakCnx (st.netB v) u w x hv1, hvbet]
  have hlw : ((switchCnx33 st a b c d e f u v w x).netB w).length
      = (st.netB w).length + 1 := by
    rw [hnetB, hBw, length_insertValue_found (st.netB w) x u v iw hiw]
  have hlx : ((switchCnx33 st a b c d e f u v w x).netB x).length
      = (st.netB x).length + 1 := by
    rw [hnetB, hBx, length_insertValue_found (st.netB x) w u v ix hix]
  have huPos : 1 ≤ (st.netB u).length := by
    have := countBetween_le_length (st.netB u) v w x
    omega
  have hvPos : 1 ≤ (st.netB v).length := by
    have := countBetween_le_length (st.netB v) u w x
    omega
  refine ⟨?_, ?_, by omega, by omega, hlw, hlx, ?_⟩
  · intro n
    rw [hnetA]
    rw [switchCnx33NetA_length st.netA a b d e n]
    exact hpreA n
  · intro n
    by_cases hnu : n = u
    · subst hnu
      omega
    · by_cases hnv : n = v
      · subst hnv
        omega
      · by_cases hnw : n = w
        · subst hnw
          omega
        · by_cases hnx : n = x
          · subst hnx
            omega
          · rw [hnetB, hBn n hnu hnv hnw hnx]
            exact hpreB n
  · intro n hnu hnv hnw hnx
    rw [hnetB]
    exact hBn n hnu hnv hnw hnx

/-- Witness for C3: the theorem applied to the concrete state
`exampleState` with `u,v,w,x = 0,1,2,3`, bounds `[3,9]` for rings and
`[1,5]` for coordinations; the accepted switch takes the four touched
ring sizes from 4,4,4,4 to 3,3,5,5. -/
theorem switchCnx33_ring_bounds_witness :
    ((switchCnx33 exampleState 10 11 12 13 14 15 0 1 2 3).netB 0).length + 1
      = (exampleState.netB 0).length
    ∧ ((switchCnx33 exampleState 10 11 12 13 14 15 0 1 2 3).netB 2).length
      = (exampleState.netB 2).length + 1
    ∧ (3 ≤ ((switchCnx33 exampleState 10 11 12 13 14 15 0 1 2 3).netB 0).length ∧
        ((switchCnx33 exampleState 10 11 12 13 14 15 0 1 2 3).netB 0).length ≤ 9) := by
  have h := switchCnx33_ring_bounds exampleState 10 11 12 13 14 15 0 1 2 3
    1 5 3 9
    (by
      intro n
      constructor <;> simp [exampleState])
    (by
      intro n
      show 3 ≤ (exampleNetB n).length ∧ (exampleNetB n).length ≤ 9
      unfold exampleNetB
      split_ifs <;> simp)
    (by rfl)
    (by decide) (by decide) (by decide) (by decide) (by decide) (by decide)
    (by decide) (by decide)
    (by decide) (by decide)
    (by decide) (by decide)
    ⟨0, by rfl⟩ ⟨0, by rfl⟩
  exact ⟨h.2.2.1, h.2.2.2.2.1, h.2.1 0⟩

/-- Set-level effect of the A-A rewiring of a 3-3 switch: the edges a-e
and b-d are replaced by a-d and b-e, every other adjacency is
untouched. -/
theorem switchCnx33NetA_mem_char (netA : Int → List Int) (a b d e : Int)
    (hab : a ≠ b) (had : a ≠ d) (hae : a ≠ e) (hbd : b ≠ d) (hbe : b ≠ e)
    (hde : d ≠ e)
    (hea : e ∈ netA a) (hdb : d ∈ netA b)
    (hbd2 : b ∈ netA d) (hae2 : a ∈ netA e) :
    ∀ i j : Int,
      (j ∈ switchCnx33NetA netA a b d e i ↔
        ((j ∈ netA i ∧
          ¬((i = a ∧ j = e) ∨ (i = e ∧ j = a) ∨
            (i = b ∧ j = d) ∨ (i = d ∧ j = b)))
         ∨ ((i = a ∧ j = d) ∨ (i = d ∧ j = a) ∨
            (i = b ∧ j = e) ∨ (i = e ∧ j = b)))) := by
  intro i j
  obtain ⟨hAa, hAb, hAd, hAe, hAn⟩ :=
    switchCnx33NetA_at netA a b d e hab had hae hbd hbe hde
  by_cases hia : i = a
  · subst hia
    rw [hAa, mem_swapValue_iff]
    simp only [hab, had, hae, false_and, and_false, or_false, false_or,
      true_and, eq_self_iff_true]
    constructor
    · rintro (⟨hj, hne⟩ | ⟨_, hj⟩)
      · tauto
      · tauto
    · intro h
      rcases h with ⟨hj, hne⟩ | hj
      · have : ¬(j = e) := by tauto
        tauto
      · tauto
  · by_cases hib : i = b
    · subst hib
      rw [hAb, mem_swapValue_iff]
      simp only [Ne.symm hab, hbd, hbe, false_and, and_false, or_false,
        false_or, true_and, eq_self_iff_true]
      constructor
      · rintro (⟨hj, hne⟩ | ⟨_, hj⟩)
        · tauto
        · tauto
      · intro h
        rcases h with ⟨hj, hne⟩ | hj
        · have : ¬(j = d) := by tauto
          tauto
        · tauto
    · by_cases hid : i = d
      · subst hid
        rw [hAd, mem_swapValue_iff]
        simp only [Ne.symm had, Ne.symm hbd, hde, false_and, and_false,
          or_false, false_or, true_and, eq_self_iff_true]
        constructor
        · rintro (⟨hj, hne⟩ | ⟨_, hj⟩)
          · tauto
          · tauto
        · intro h
          rcases h with ⟨hj, hne⟩ | hj
          · have : ¬(j = b) := by tauto
            tauto
          · tauto
      · by_cases hie : i = e
        · subst hie
          rw [hAe, mem_swapValue_iff]
          simp only [Ne.symm hae, Ne.symm hbe, Ne.symm hde, false_and,
            and_false, or_false, false_or, true_and, eq_self_iff_true]
          constructor
          · rintro (⟨hj, hne⟩ | ⟨_, hj⟩)
            · tauto
            · tauto
          · intro h
            rcases h with ⟨hj, hne⟩ | hj
            · have : ¬(j = a) := by tauto
              tauto
            · tauto
        · rw [hAn i hia hib hid hie]
          simp only [hia, hib, hid, hie, false_and, or_false, false_or]
          tauto

/-- Set-level effect of the B-B rewiring of a 3-3 switch (simple branch):
the ring edge u-v is broken and the ring edge w-x is made, every other
ring adjacency is untouched (for non-sentinel ids). -/
theorem switchCnx33NetB_mem_char (netB dualA : Int → List Int)
    (e f u v w x : Int)
    (huv : u ≠ v) (huw : u ≠ w) (hux : u ≠ x) (hvw : v ≠ w) (hvx : v ≠ x)
    (hwx : w ≠ x)
    (hu1 : (-1 : Int) ∉ netB u) (hv1 : (-1 : Int) ∉ netB v)
    (hv1' : v ≠ -1) (hu1' : u ≠ -1)
    (hallu : ∀ i, i < (netB u).length → (netB u).getD i 0 = v →
        betweenAt (netB u) i v w x)
    (hallv : ∀ i, i < (netB v).length → (netB v).getD i 0 = u →
        betweenAt (netB v) i u w x)
    (hws : vAdjCount (netB w) u v ≤ 1) (hxs : vAdjCount (netB x) u v ≤ 1)
    (hwins : ∃ iw, adjPairIdx (netB w) u v = some iw)
    (hxins : ∃ ix, adjPairIdx (netB x) u v = some ix) :
    ∀ i j : Int, i ≠ -1 → j ≠ -1 →
      (j ∈ switchCnx33NetB netB dualA e f u v w x i ↔
        ((j ∈ netB i ∧ ¬((i = u ∧ j = v) ∨ (i = v ∧ j = u)))
         ∨ ((i = w ∧ j = x) ∨ (i = x ∧ j = w)))) := by
  intro i j hi1 hj1
  obtain ⟨hBu, hBv, hBw, hBx, hBn⟩ :=
    switchCnx33NetB_at netB dualA e f u v w x huv huw hux hvw hvx hwx hws hxs
  obtain ⟨iw, hiw⟩ := hwins
  obtain ⟨ix, hix⟩ := hxins
  by_cases hiu : i = u
  · rw [hiu, hBu]
    simp only [eq_self_iff_true, true_and, huv, huw, hux, false_and,
      or_false, false_or]
    constructor
    · intro hj
      by_cases hjv : j = v
      · subst hjv
        exact absurd hj (not_mem_breakCnx_old (netB u) j w x hj1 hallu)
      · exact ⟨(mem_breakCnx_of_ne (netB u) v w x j hjv hj1).mp hj, hjv⟩
    · rintro ⟨hj, hjv⟩
      exact (mem_breakCnx_of_ne (netB u) v w x j hjv hj1).mpr hj
  · by_cases hiv : i = v
    · rw [hiv, hBv]
      simp only [eq_self_iff_true, true_and, Ne.symm huv, hvw, hvx,
        false_and, and_false, or_false, false_or]
      constructor
      · intro hj
        by_cases hju : j = u
        · subst hju
          exact absurd hj (not_mem_breakCnx_old (netB v) j w x hj1 hallv)
        · exact ⟨(mem_breakCnx_of_ne (netB v) u w x j hju hj1).mp hj, hju⟩
      · rintro ⟨hj, hju⟩
        exact (mem_breakCnx_of_ne (netB v) u w x j hju hj1).mpr hj
    · by_cases hiw2 : i = w
      · rw [hiw2, hBw, mem_insertValue_found (netB w) x u v j iw hiw]
        constructor
        · rintro (hj | hj)
          · exact Or.inr (Or.inl ⟨rfl, hj⟩)
          · refine Or.inl ⟨hj, ?_⟩
            rintro (⟨hc, _⟩ | ⟨hc, _⟩)
            · exact huw hc.symm
            · exact hvw hc.symm
        · rintro (⟨hj, _⟩ | (⟨_, hj⟩ | ⟨hc, _⟩))
          · exact Or.inr hj
          · exact Or.inl hj
          · exact absurd hc hwx
      · by_cases hix2 : i = x
        · rw [hix2, hBx, mem_insertValue_found (netB x) w u v j ix hix]
          constructor
          · rintro (hj | hj)
            · exact Or.inr (Or.inr ⟨rfl, hj⟩)
            · refine Or.inl ⟨hj, ?_⟩
              rintro (⟨hc, _⟩ | ⟨hc, _⟩)
              · exact hux hc.symm
              · exact hvx hc.symm
          · rintro (⟨hj, _⟩ | (⟨hc, _⟩ | ⟨_, hj⟩))
            · exact Or.inr hj
            · exact absurd hc (Ne.symm hwx)
            · exact Or.inl hj
        · rw [hBn i hiu hiv hiw2 hix2]
          constructor
          · intro hj
            refine Or.inl ⟨hj, ?_⟩
            rintro (⟨hc, _⟩ | ⟨hc, _⟩)
            · exact hiu hc
            · exact hiv hc
          · rintro (⟨hj, _⟩ | (⟨hc, _⟩ | ⟨hc, _⟩))
            · exact hj
            · exact absurd hc hiw2
            · exact absurd hc hix2

/-- Claim C4: symmetric adjacency is preserved by a committed 3-3 switch
move: for all node ids `i`,`j` in the carrier, `j ∈ netCnxs(i)` iff
`i ∈ netCnxs(j)`, in network A and in network B, whenever it held before
the move. -/
theorem switchCnx33_preserves_symmetry
    (st : LinkedState) (a b c d e f u v w x : Int) (ids idsB : List Int)
    (hsymA : SymOn ids st.netA) (hsymB : SymOn idsB st.netB)
    (haid : a ∈ ids) (hbid : b ∈ ids) (hdid : d ∈ ids) (heid : e ∈ ids)
    (hab : a ≠ b) (had : a ≠ d) (hae : a ≠ e) (hbd : b ≠ d) (hbe : b ≠ e)
    (hde : d ≠ e)
    (hea : e ∈ st.netA a) (hdb : d ∈ st.netA b)
    (huid : u ∈ idsB) (hvid : v ∈ idsB) (hwid : w ∈ idsB) (hxid : x ∈ idsB)
    (huv : u ≠ v) (huw : u ≠ w) (hux : u ≠ x) (hvw : v ≠ w) (hvx : v ≠ x)
    (hwx : w ≠ x)
    (hneg : (-1 : Int) ∉ idsB)
    (hu1 : (-1 : Int) ∉ st.netB u) (hv1 : (-1 : Int) ∉ st.netB v)
    (hallu : ∀ i, i < (st.netB u).length → (st.netB u).getD i 0 = v →
        betweenAt (st.netB u) i v w x)
    (hallv : ∀ i, i < (st.netB v).length → (st.netB v).getD i 0 = u →
        betweenAt (st.netB v) i u w x)
    (hws : vAdjCount (st.netB w) u v ≤ 1)
    (hxs : vAdjCount (st.netB x) u v ≤ 1)
    (hwins : ∃ iw, adjPairIdx (st.netB w) u v = some iw)
    (hxins : ∃ ix, adjPairIdx (st.netB x) u v = some ix) :
    SymOn ids ((switchCnx33 st a b c d e f u v w x).netA)
    ∧ SymOn idsB ((switchCnx33 st a b c d e f u v w x).netB) := by
  have hbd2 : b ∈ st.netA d := (hsymA d hdid b hbid).mpr hdb
  have hae2 : a ∈ st.netA e := (hsymA e heid a haid).mpr hea
  have hu1' : u ≠ -1 := fun h => hneg (h ▸ huid)
  have hv1' : v ≠ -1 := fun h => hneg (h ▸ hvid)
  have hnetA : (switchCnx33 st a b c d e f u v w x).netA
      = switchCnx33NetA st.netA a b d e := rfl
  have hnetB : (switchCnx33 st a b c d e f u v w x).netB
      = switchCnx33NetB st.netB (switchCnx33DualA st.dualA a b u v w x)
          e f u v w x := rfl
  have hcharA := switchCnx33NetA_mem_char st.netA a b d e hab had hae hbd
    hbe hde hea hdb hbd2 hae2
  have hcharB := switchCnx33NetB_mem_char st.netB
    (switchCnx33DualA st.dualA a b u v w x) e f u v w x huv huw hux hvw hvx
    hwx hu1 hv1 hv1' hu1' hallu hallv hws hxs hwins hxins
  constructor
  · intro i hi j hj
    rw [hnetA, hcharA i j, hcharA j i]
    have hbase := hsymA i hi j hj
    constructor
    · rintro (⟨hm, hp⟩ | hq)
      · refine Or.inl ⟨hbase.mp hm, ?_⟩
        rintro (⟨h1, h2⟩ | ⟨h1, h2⟩ | ⟨h1, h2⟩ | ⟨h1, h2⟩)
        · exact hp (Or.inr (Or.inl ⟨h2, h1⟩))
        · exact hp (Or.inl ⟨h2, h1⟩)
        · exact hp (Or.inr (Or.inr (Or.inr ⟨h2, h1⟩)))
        · exact hp (Or.inr (Or.inr (Or.inl ⟨h2, h1⟩)))
      · refine Or.inr ?_
        rcases hq with ⟨h1, h2⟩ | ⟨h1, h2⟩ | ⟨h1, h2⟩ | ⟨h1, h2⟩
        · exact Or.inr (Or.inl ⟨h2, h1⟩)
        · exact Or.inl ⟨h2, h1⟩
        · exact Or.inr (Or.inr (Or.inr ⟨h2, h1⟩))
        · exact Or.inr (Or.inr (Or.inl ⟨h2, h1⟩))
    · rintro (⟨hm, hp⟩ | hq)
      · refine Or.inl ⟨hbase.mpr hm, ?_⟩
        rintro (⟨h1, h2⟩ | ⟨h1, h2⟩ | ⟨h1, h2⟩ | ⟨h1, h2⟩)
        · exact hp (Or.inr (Or.inl ⟨h2, h1⟩))
        · exact hp (Or.inl ⟨h2, h1⟩)
        · exact hp (Or.inr (Or.inr (Or.inr ⟨h2, h1⟩)))
        · exact hp (Or.inr (Or.inr (Or.inl ⟨h2, h1⟩)))
      · refine Or.inr ?_
        rcases hq with ⟨h1, h2⟩ | ⟨h1, h2⟩ | ⟨h1, h2⟩ | ⟨h1, h2⟩
        · exact Or.inr (Or.inl ⟨h2, h1⟩)
        · exact Or.inl ⟨h2, h1⟩
        · exact Or.inr (Or.inr (Or.inr ⟨h2, h1⟩))
        · exact Or.inr (Or.inr (Or.inl ⟨h2, h1⟩))
  · intro i hi j hj
    have hi1 : i ≠ -1 := fun h => hneg (h ▸ hi)
    have hj1 : j ≠ -1 := fun h => hneg (h ▸ hj)
    rw [hnetB, hcharB i j hi1 hj1, hcharB j i hj1 hi1]
    have hbase := hsymB i hi j hj
    constructor
    · rintro (⟨hm, hp⟩ | hq)
      · refine Or.inl ⟨hbase.mp hm, ?_⟩
        rintro (⟨h1, h2⟩ | ⟨h1, h2⟩)
        · exact hp (Or.inr ⟨h2, h1⟩)
        · exact hp (Or.inl ⟨h2, h1⟩)
      · refine Or.inr ?_
        rcases hq with ⟨h1, h2⟩ | ⟨h1, h2⟩
        · exact Or.inr ⟨h2, h1⟩
        · exact Or.inl ⟨h2, h1⟩
    · rintro (⟨hm, hp⟩ | hq)
      · refine Or.inl ⟨hbase.mpr hm, ?_⟩
        rintro (⟨h1, h2⟩ | ⟨h1, h2⟩)
        · exact hp (Or.inr ⟨h2, h1⟩)
        · exact hp (Or.inl ⟨h2, h1⟩)
      · refine Or.inr ?_
        rcases hq with ⟨h1, h2⟩ | ⟨h1, h2⟩
        · exact Or.inr ⟨h2, h1⟩
        · exact Or.inl ⟨h2, h1⟩

/-- Witness for C4: the theorem applied to the concrete symmetric state
`exampleSymState` with `a,b,d,e = 0,1,2,3` in network A and
`u,v,w,x = 0,1,2,3` in network B; the made ring edge w-x (2-3) is mutual
after the switch. -/
theorem switchCnx33_preserves_symmetry_witness :
    ((3 : Int) ∈ (switchCnx33 exampleSymState 0 1 9 2 3 8 0 1 2 3).netB 2 ↔
      (2 : Int) ∈ (switchCnx33 exampleSymState 0 1 9 2 3 8 0 1 2 3).netB 3)
    ∧ ((2 : Int) ∈ (switchCnx33 exampleSymState 0 1 9 2 3 8 0 1 2 3).netA 0 ↔
      (0 : Int) ∈ (switchCnx33 exampleSymState 0 1 9 2 3 8 0 1 2 3).netA 2) := by
  have h := switchCnx33_preserves_symmetry exampleSymState 0 1 9 2 3 8 0 1 2 3
    [0, 1, 2, 3] [0, 1, 2, 3, 4, 5, 6, 7]
    (by unfold SymOn; decide) (by unfold SymOn; decide)
    (by decide) (by decide) (by decide) (by decide)
    (by decide) (by decide) (by decide) (by decide) (by decide) (by decide)
    (by decide) (by decide)
    (by decide) (by decide) (by decide) (by decide)
    (by decide) (by decide) (by decide) (by decide) (by decide) (by decide)
    (by decide)
    (by decide) (by decide)
    (by decide) (by decide)
    (by decide) (by decide)
    ⟨0, by decide⟩ ⟨0, by decide⟩
  exact ⟨h.2 2 (by decide) 3 (by decide), h.1 0 (by decide) 2 (by decide)⟩

/-- Claim C1 (code bug, failing input `isAccepted = true` in
`monteCarloSwitchMove`): the non-LAMMPS Monte Carlo switch routine has
its accept/reject branch bodies inverted — when the Metropolis test
accepts, it writes the pre-move snapshot (coordinates, distribution
tables, touched nodes) back over the mutated state, and when the test
rejects it keeps the mutated state; the LAMMPS sibling routine implements
the claimed behaviour (restore exactly on reject, keep on accept), as this
concrete evaluation of both commit paths shows. -/
theorem monteCarloSwitchMove_commit_divergence :
    ((monteCarloSwitchMoveCommit true exampleMCPre exampleMCPost
        exampleIdsA exampleIdsB).linked.netB 0 = exampleMCPre.linked.netB 0)
    ∧ ((monteCarloSwitchMoveCommit true exampleMCPre exampleMCPost
        exampleIdsA exampleIdsB).crds = exampleMCPre.crds)
    ∧ (exampleMCPost.linked.netB 0 ≠ exampleMCPre.linked.netB 0)
    ∧ ((monteCarloSwitchMoveCommit false exampleMCPre exampleMCPost
        exampleIdsA exampleIdsB).linked.netB 0 = exampleMCPost.linked.netB 0)
    ∧ ((monteCarloSwitchMoveCommit false exampleMCPre exampleMCPost
        exampleIdsA exampleIdsB).crds = exampleMCPost.crds)
    ∧ ((monteCarloSwitchMoveLAMMPSCommit false exampleMCPre exampleMCPost
        exampleIdsA exampleIdsB).linked.netB 0 = exampleMCPre.linked.netB 0)
    ∧ ((monteCarloSwitchMoveLAMMPSCommit false exampleMCPre exampleMCPost
        exampleIdsA exampleIdsB).linked.netA 0 = exampleMCPre.linked.netA 0)
    ∧ ((monteCarloSwitchMoveLAMMPSCommit true exampleMCPre exampleMCPost
        exampleIdsA exampleIdsB).linked.netB 0 = exampleMCPost.linked.netB 0) := by
  refine ⟨?_, ?_, ?_, ?_, ?_, ?_, ?_, ?_⟩ <;> decide

/-- Counterexample to claim C2 as stated: with two further draws still
available (no retries exhausted), the picker raises the
incorrect-dual-ids runtime error on the very first selection whose
endpoints do not have exactly two common dual nodes, instead of retrying
the selection. -/
theorem pickRandomCnx34_raises_on_first :
    pickRandomCnx34 exampleBadDualState []
        [⟨0, 0, 0⟩, ⟨0, 0, 0⟩, ⟨0, 0, 0⟩]
      = Except.error "Error in random connection - incorrect dual ids" := by
  rfl

/-- Claim C2 (amended): when the two chosen network-A nodes do not have
exactly two common dual nodes, `pickRandomCnx34` raises the runtime error
immediately on the first occurrence, regardless of how many draws remain;
the selection loop retries only on fixed-ring hits. -/
theorem pickRandomCnx34_dual_error (st : LinkedState)
    (fixedRings : List Int) (dr : PickDraw) (rest : List PickDraw)
    (a b t : Int)
    (hassign : assignValues dr.node0
        ((st.netA dr.node0).getD (dr.cnxIdx % (st.netA dr.node0).length) 0)
        ((st.netA dr.node0).length : Int)
        ((st.netA ((st.netA dr.node0).getD
            (dr.cnxIdx % (st.netA dr.node0).length) 0)).length : Int)
        = Except.ok (a, b, t))
    (hcommon : (vCommonValues (st.dualA a) (st.dualA b)).length ≠ 2) :
    pickRandomCnx34 st fixedRings (dr :: rest)
      = Except.error "Error in random connection - incorrect dual ids" := by
  unfold pickRandomCnx34
  simp only [hassign]
  rw [if_neg hcommon]

/-- Witness for the amended C2: the error is raised at the concrete bad
state even though two further draws remain. -/
theorem pickRandomCnx34_dual_error_witness :
    pickRandomCnx34 exampleBadDualState []
        [⟨0, 0, 1⟩, ⟨0, 0, 0⟩]
      = Except.error "Error in random connection - incorrect dual ids" :=
  pickRandomCnx34_dual_error exampleBadDualState [] ⟨0, 0, 1⟩ [⟨0, 0, 0⟩]
    0 1 33 rfl (by decide)

/-- Counterexample to claim C5 as stated: at `exampleAmbiguousState` the
candidate result set of the common-neighbour query has size 2, yet the
query succeeds (returning 30 via the cyclic-order fallback) instead of
failing. -/
theorem findAssociatedNodeAB_fallback_succeeds :
    findAssociatedNodeAB exampleAmbiguousState 10 5 20 = Except.ok 30
    ∧ (delValue (vCommonValues (exampleAmbiguousState.netA 10)
        (exampleAmbiguousState.dualB 5)) 20).length = 2 :=
  ⟨rfl, by decide⟩

/-- Claim C5 (amended): the common-neighbour query returns the unique
node when the candidate result set has size exactly 1; when the size is
not 1 it attempts two cyclic-order fallback disambiguations and fails
only when those produce no candidate — in particular any failure implies
the candidate set's size was not 1. -/
theorem findAssociatedNodeAB_spec (st : LinkedState) (idA idB idDel : Int) :
    ((delValue (vCommonValues (st.netA idA) (st.dualB idB)) idDel).length = 1 →
      findAssociatedNodeAB st idA idB idDel
        = Except.ok ((delValue (vCommonValues (st.netA idA)
            (st.dualB idB)) idDel).getD 0 0))
    ∧ (∀ msg, findAssociatedNodeAB st idA idB idDel = Except.error msg →
        (delValue (vCommonValues (st.netA idA) (st.dualB idB)) idDel).length
          ≠ 1) := by
  constructor
  · intro h1
    unfold findAssociatedNodeAB
    rw [if_pos h1]
  · intro msg herr h1
    unfold findAssociatedNodeAB at herr
    rw [if_pos h1] at herr
    exact absurd herr (by simp)

/-- Witness for the amended C5: at `exampleUniqueState` the candidate set
is the singleton 30 and the query returns it. -/
theorem findAssociatedNodeAB_spec_witness :
    findAssociatedNodeAB exampleUniqueState 10 5 20
      = Except.ok ((delValue (vCommonValues (exampleUniqueState.netA 10)
          (exampleUniqueState.dualB 5)) 20).getD 0 0) :=
  (findAssociatedNodeAB_spec exampleUniqueState 10 5 20).1 (by decide)

/-- Counterexample to claim C6 as stated: a Spiral Monte Carlo step whose
selection never succeeds returns normally with the zero status vector
after only 10 attempts — it does not raise a fatal error — while the
non-spiral search at `N = 4` does throw after its `N * N` attempts. -/
theorem spiralMoveSearch_no_error :
    spiralMoveSearch (fun _ => false) = Except.ok none
    ∧ monteCarloMoveSearch 4 (fun _ => false)
        = Except.error "Cannot find any valid switch moves" :=
  ⟨rfl, rfl⟩

/-- Claim C6 (amended): `monteCarloSwitchMove` and
`monteCarloSwitchMoveLAMMPS` retry move selection at most `N * N` times
(`N` the node count of network A) and raise the fatal
cannot-find-any-valid-switch-moves error exactly when every attempt in
that bound fails; when some attempt within the bound succeeds, the first
success is used.  (`SpiralmonteCarloSwitchMoveLAMMPS` instead stops after
10 attempts and returns a zero status without raising.) -/
theorem monteCarloMoveSearch_spec (numNodesA : Nat) (attempt : Nat → Bool) :
    ((∀ i, i < numNodesA * numNodesA → attempt i = false) →
      monteCarloMoveSearch numNodesA attempt
        = Except.error "Cannot find any valid switch moves")
    ∧ ((∃ i, i < numNodesA * numNodesA ∧ attempt i = true) →
      ∃ k, k < numNodesA * numNodesA ∧ attempt k = true ∧
        monteCarloMoveSearch numNodesA attempt = Except.ok k) := by
  constructor
  · intro hall
    unfold monteCarloMoveSearch
    have hnone : (List.range (numNodesA * numNodesA)).find?
        (fun i => attempt i) = none := by
      rw [List.find?_eq_none]
      intro x hx
      rw [hall x (List.mem_range.mp hx)]
      exact Bool.false_ne_true
    rw [hnone]
  · rintro ⟨i, hi, hatt⟩
    rcases hfind : (List.range (numNodesA * numNodesA)).find?
        (fun i => attempt i) with _ | k
    · exfalso
      have := List.find?_eq_none.mp hfind i (List.mem_range.mpr hi)
      exact this hatt
    · refine ⟨k, List.mem_range.mp (List.mem_of_find?_eq_some hfind),
        List.find?_some hfind, ?_⟩
      unfold monteCarloMoveSearch
      rw [hfind]

/-- Witness for the amended C6: with `N = 2` and an attempt succeeding
only at iteration 2, the non-spiral search returns that iteration. -/
theorem monteCarloMoveSearch_spec_witness :
    monteCarloMoveSearch 2 (fun i => decide (i = 2)) = Except.ok 2 := by
  obtain ⟨k, _, hatt, heq⟩ :=
    (monteCarloMoveSearch_spec 2 (fun i => decide (i = 2))).2
      ⟨2, by decide, by decide⟩
  have hk2 : k = 2 := of_decide_eq_true hatt
  rw [hk2] at heq
  exact heq

theorem foldl_add_eq_sum (g : Nat → Rat) :
    ∀ (r : List Nat) (s : Rat),
      r.foldl (fun acc i => acc + g i) s = s + (r.map g).sum
  | [], s => by simp
  | i :: r, s => by
    rw [List.foldl_cons, foldl_add_eq_sum g r (s + g i)]
    simp [add_assoc]


theorem cyclic_fold_eq_zip_rotate (l : List Int) (f : Int → Int → Rat) :
    (List.range l.length).foldl
      (fun s i => s + f (l.getD i 0) (l.getD ((i + 1) % l.length) 0)) 0
    = ((l.zip (l.rotate 1)).map (fun p => f p.1 p.2)).sum := by
  rw [foldl_add_eq_sum, zero_add]
  congr 1
  refine List.ext_getElem ?_ ?_
  · simp [List.length_rotate]
  · intro k hk1 hk2
    simp only [List.length_map, List.length_range] at hk1
    have hn : 0 < l.length := by omega
    have hmod : (k + 1) % l.length < l.length := Nat.mod_lt _ hn
    simp only [List.getElem_map, List.getElem_range, List.getElem_zip]
    rw [List.getElem_rotate]
    rw [List.getD_eq_getElem l 0 hk1, List.getD_eq_getElem l 0 hmod]

/-- Claim C7: for every node id, `checkConvexity` returns true if and
only if the sum of the interior angles between cyclically adjacent bond
vectors around that node (periodic-boundary-corrected) is within `1e-12`
of `2π` — stated against `interiorAngleSum`, an independent enumeration
of the same angles by zipping the neighbour list with its rotation. -/
theorem checkConvexity_iff (ang : Rat × Rat → Rat × Rat → Rat)
    (crds : Int → Rat × Rat) (netCnxs : Int → List Int) (pb rpb : Rat × Rat)
    (id : Int) (twoPi : Rat) :
    checkConvexity ang crds netCnxs pb rpb id twoPi = true ↔
      |interiorAngleSum ang crds netCnxs pb rpb id - twoPi|
        < 1 / 1000000000000 := by
  unfold checkConvexity interiorAngleSum
  simp only [decide_eq_true_eq]
  rw [cyclic_fold_eq_zip_rotate (netCnxs id)
    (fun x y => ang (pbcVector crds pb rpb id x) (pbcVector crds pb rpb id y))]

theorem map_getD_range (l : List Rat) :
    (List.range l.length).map (fun j => l.getD j 0) = l := by
  refine List.ext_getElem (by simp) ?_
  intro k hk1 hk2
  simp only [List.getElem_map, List.getElem_range]
  exact List.getD_eq_getElem l 0 hk2

theorem sum_map_div (l : List Rat) (c : Rat) :
    (l.map (fun t => t / c)).sum = l.sum / c := by
  induction l with
  | nil => simp
  | cons a t ih =>
    simp only [List.map_cons, List.sum_cons, ih, add_div]

/-- Counterexample to claim C8 as stated: the weights `makerFixed` builds
are `1000 / r`, not normalized — at distances `rs = [1, 1]` the two
weights are `1000, 1000` and their sum is `2000`, not `1`. -/
theorem makerFixed_not_normalized :
    makerFixed [] [1, 1] = [1000, 1000]
    ∧ (makerFixed [] [1, 1]).sum ≠ 1 :=
  ⟨by norm_num [makerFixed], by norm_num [makerFixed]⟩

/-- Claim C8 (amended): under weighted selection, the per-node weight
equals `1000 / r` with `r` the node's distance from the centre of the
first fixed ring (not a normalized exponential decay); node `a` is drawn
by `std::discrete_distribution` over those weights, i.e. with probability
`(1000 / r_i)` over the weight total, and those probabilities (not the
weights) sum to 1. -/
theorem makerFixed_spec (rs : List Rat) (i : Nat) (hi : i < rs.length)
    (hpos : ∀ r ∈ rs, 0 < r) :
    (makerFixed [] rs).getD i 0 = 1000 / rs.getD i 0
    ∧ discreteProb (makerFixed [] rs) i
        = (1000 / rs.getD i 0) / (rs.map (fun r => 1000 / r)).sum
    ∧ ((List.range (makerFixed [] rs).length).map
        (fun j => discreteProb (makerFixed [] rs) j)).sum = 1 := by
  have hmf : makerFixed [] rs = rs.map (fun r => 1000 / r) := by
    unfold makerFixed
    exact List.nil_append _
  have hlen : i < (rs.map (fun r => 1000 / r)).length := by
    simpa using hi
  have hgd : (makerFixed [] rs).getD i 0 = 1000 / rs.getD i 0 := by
    rw [hmf, List.getD_eq_getElem _ 0 hlen, List.getElem_map,
      List.getD_eq_getElem rs 0 hi]
  have hne : rs ≠ [] := by
    intro hcontra
    rw [hcontra] at hi
    exact Nat.not_lt_zero i hi
  have hWpos : 0 < (makerFixed [] rs).sum := by
    rw [hmf]
    refine List.sum_pos _ ?_ ?_
    · intro x hx
      obtain ⟨r, hr, hrx⟩ := List.mem_map.mp hx
      rw [← hrx]
      exact div_pos (by norm_num) (hpos r hr)
    · intro hcontra
      exact hne (List.map_eq_nil_iff.mp hcontra)
  refine ⟨hgd, ?_, ?_⟩
  · unfold discreteProb
    rw [hgd, hmf]
  · have hcomp : (List.range (makerFixed [] rs).length).map
        (fun j => discreteProb (makerFixed [] rs) j)
        = ((List.range (makerFixed [] rs).length).map
            (fun j => (makerFixed [] rs).getD j 0)).map
          (fun t => t / (makerFixed [] rs).sum) := by
      rw [List.map_map]
      rfl
    rw [hcomp, map_getD_range, sum_map_div]
    exact div_self (ne_of_gt hWpos)

/-- Witness for the amended C8: at distances `rs = [2, 2]` the first
node's weight is `500` and its draw probability is one half. -/
theorem makerFixed_spec_witness :
    (makerFixed [] [2, 2]).getD 0 0 = 1000 / ([2, 2] : List Rat).getD 0 0
    ∧ discreteProb (makerFixed [] [2, 2]) 0
        = (1000 / ([2, 2] : List Rat).getD 0 0)
            / (([2, 2] : List Rat).map (fun r => 1000 / r)).sum
    ∧ ((List.range (makerFixed [] [2, 2]).length).map
        (fun j => discreteProb (makerFixed [] [2, 2]) j)).sum = 1 :=
  makerFixed_spec [2, 2] 0 (by decide) (by norm_num)
